import Mathlib

/-!
Shallow embedding of the `srn-py/18-nine-backend` Django e-commerce backend,
with proofs about its business logic:

* `ProductVariant.get_offer_price` (src/applications/store/models.py)
* `CustomUser.generate_unique_referral_code` and `CustomUser.save`
  (src/applications/accounts/models.py)
* `Color.save` image re-encoding pipeline (src/applications/catalog/models.py)
* `ProductVariant.save` slug generation and the unique constraints of
  `ProductVariant.Meta` (src/applications/store/models.py)
* `HomeView.get_context_data` (src/applications/store/views.py)
* `ProductVariantImageAdmin.mark_as_primary` (src/applications/store/admin.py)

Database state is modelled as a list of rows; unique constraints are modelled
as the database rejecting an insert that would violate them.
-/

namespace NineBackend

/-! ## ProductVariant.get_offer_price (store/models.py)

The Python body is

```
base_price = self.product.base_price
offer_percentage = Decimal(self.offer_percentage)
final_price = (Decimal(100) - offer_percentage) / Decimal(100) * base_price
return final_price
```

`base_price` is a nullable `DecimalField(max_digits=10, decimal_places=2)` and
`offer_percentage` an `IntegerField`.  Python `Decimal` arithmetic at the
default context (28 significant digits) is exact on every value reachable
here: `(100 - p) / 100` has a coefficient of at most 3 digits and at most two
fractional digits, and its product with a coefficient of at most 10 digits
has at most 13 significant digits, below the 28-digit precision, so no
rounding occurs and the computation agrees with exact rational arithmetic.
We therefore embed `Decimal` values as `ℚ`.  A `None` base price is a `none`;
on it the Python code raises (undefined behaviour per the spec), which the
embedding renders as propagating `none`. -/
def get_offer_price (base_price : Option ℚ) (offer_percentage : ℤ) : Option ℚ :=
  base_price.map (fun b => ((100 : ℚ) - (offer_percentage : ℚ)) / 100 * b)

/-! ## Color.save (catalog/models.py)

The save hook opens the uploaded image, converts it to RGB, resizes it to
50×50 with the LANCZOS filter, then re-encodes it as PNG or JPEG depending on
`os.path.splitext(self.image.name)[1].lower() == 'png'`.  PIL images are
embedded at the level the claims need: dimensions and colour mode; `resize`
returns an image of exactly the requested dimensions and `convert` only
changes the mode, which is the documented contract of both PIL calls. -/

structure PILImage where
  width : Nat
  height : Nat
  mode : String
  deriving Repr, DecidableEq

/-- `Image.convert(mode)`: same pixels reinterpreted, same dimensions. -/
def pilConvert (mode : String) (img : PILImage) : PILImage :=
  { img with mode := mode }

/-- `Image.resize((w, h), filter)`: returns an image of exactly the requested
dimensions, whatever the source dimensions. -/
def pilResize (w h : Nat) (img : PILImage) : PILImage :=
  { img with width := w, height := h }

/-- Encoding chosen by `Color.save` for the re-encoded upload. -/
inductive ImgFormat where
  | png
  | jpeg
  deriving Repr, DecidableEq

/-- Characters of the file name after the last path separator,
as in `os.path.basename`. -/
def basenameChars (l : List Char) : List Char :=
  l.foldl (fun acc c => if c = '/' then [] else acc ++ [c]) []

/-- Extension part of `os.path.splitext(name)`: the suffix of the basename
starting at its last dot, unless every character before that dot is itself a
dot (leading dots of a hidden file are not an extension), in which case the
extension is empty.  The returned extension includes the dot, exactly as in
Python: `splitext("red.png") = ("red", ".png")`. -/
def splitextExt (name : String) : String :=
  let b := basenameChars name.data
  match b.reverse.findIdx? (fun c => c = '.') with
  | none => ""
  | some k =>
    let di := b.length - 1 - k
    if (b.take di).any (fun c => c ≠ '.') then ⟨b.drop di⟩ else ""

/-- Python `str.lower()` over the character list (the file names involved are
ASCII, on which per-character lowering is exact). -/
def pyLower (s : String) : String :=
  ⟨s.data.map Char.toLower⟩

/-- Result of `Color.save` on a record with an attached image: the re-encoded
stored image.  `name` is `self.image.name`, `img` the decoded upload. -/
structure StoredImage where
  width : Nat
  height : Nat
  mode : String
  format : ImgFormat
  content_type : String
  deriving Repr, DecidableEq

/-- `Color.save` with an attached image (the `if self.image:` branch):
convert to RGB, resize to 50×50 LANCZOS, then branch on
`os.path.splitext(self.image.name)[1].lower() == 'png'` to choose PNG or
JPEG encoding. -/
def colorSave (name : String) (img : PILImage) : StoredImage :=
  let img1 := pilConvert "RGB" img
  let img2 := pilResize 50 50 img1
  let file_extension := pyLower (splitextExt name)
  if file_extension = "png" then
    ⟨img2.width, img2.height, img2.mode, ImgFormat.png, "image/png"⟩
  else
    ⟨img2.width, img2.height, img2.mode, ImgFormat.jpeg, "image/jpeg"⟩

/-! ## Theorems: C1, C2, C4, C7 -/

/-- C1: for a variant whose parent product has non-null base price `b` and
integer offer percentage `p` with `0 ≤ p ≤ 99`, `get_offer_price` returns
exactly `b * (100 - p) / 100` in exact (rational-valued) decimal arithmetic;
in particular `base_price = 200.00`, `offer_percentage = 25` yields
`offer_price = 150.00`. -/
theorem get_offer_price_exact (b : ℚ) (p : ℤ) (h0 : 0 ≤ p) (h99 : p ≤ 99) :
    get_offer_price (some b) p = some (b * (100 - (p : ℚ)) / 100) ∧
    get_offer_price (some 200) 25 = some 150 := by
  constructor
  · show some (((100 : ℚ) - (p : ℚ)) / 100 * b) = some (b * (100 - (p : ℚ)) / 100)
    congr 1
    ring
  · show some (((100 : ℚ) - ((25 : ℤ) : ℚ)) / 100 * 200) = some 150
    norm_num

/-- Witness for C1 at the worked example of the spec. -/
theorem get_offer_price_exact_witness :
    get_offer_price (some 200) 25 = some 150 :=
  (get_offer_price_exact 200 25 (by decide) (by decide)).2

/-- C2 counterexample: the claim `0 ≤ get_offer_price ≤ base_price` fails as
stated, because `Product.base_price` carries no non-negativity validator.
With `base_price = -1.00` (well inside `max_digits = 10`) and
`offer_percentage = 0` the computed offer price is `-1.00`, which is not
`≥ 0`. -/
theorem get_offer_price_bounds_cex :
    get_offer_price (some (-1)) 0 = some (-1) ∧ ¬ ((0 : ℚ) ≤ -1) := by
  constructor
  · show some (((100 : ℚ) - ((0 : ℤ) : ℚ)) / 100 * (-1)) = some (-1)
    norm_num
  · norm_num

/-- C2 (amended): for a non-null, non-negative base price `b` and an offer
percentage `p` with `0 ≤ p ≤ 99`, the offer price lies between `0` and `b`
inclusive. -/
theorem get_offer_price_bounds (b : ℚ) (p : ℤ) (q : ℚ)
    (hb : 0 ≤ b) (h0 : 0 ≤ p) (h99 : p ≤ 99)
    (hq : get_offer_price (some b) p = some q) :
    0 ≤ q ∧ q ≤ b := by
  have hq' : q = (100 - (p : ℚ)) / 100 * b := by
    simpa [get_offer_price, eq_comm] using hq
  have hp0 : (0 : ℚ) ≤ (p : ℚ) := by exact_mod_cast h0
  have hp99 : (p : ℚ) ≤ 99 := by exact_mod_cast h99
  have hfac0 : (0 : ℚ) ≤ (100 - (p : ℚ)) / 100 := by
    apply div_nonneg <;> linarith
  have hfac1 : (100 - (p : ℚ)) / 100 ≤ 1 := by
    rw [div_le_one (by norm_num : (0 : ℚ) < 100)]
    linarith
  subst hq'
  constructor
  · exact mul_nonneg hfac0 hb
  · have h1 : (100 - (p : ℚ)) / 100 * b ≤ 1 * b :=
      mul_le_mul_of_nonneg_right hfac1 hb
    linarith

/-- Witness for C2 (amended) at `b = 200`, `p = 25`. -/
theorem get_offer_price_bounds_witness :
    0 ≤ (150 : ℚ) ∧ (150 : ℚ) ≤ 200 :=
  get_offer_price_bounds 200 25 150 (by norm_num) (by decide) (by decide)
    (by show some (((100 : ℚ) - ((25 : ℤ) : ℚ)) / 100 * 200) = some 150
        norm_num)

/-- C4: the code intends (per its own comments and the spec) to keep PNG
uploads encoded as PNG, but it compares the `os.path.splitext` extension
`".png"` (which includes the dot) with the bare string `"png"`; the
comparison is always false, so every upload — PNG included — is re-encoded
as JPEG.  Evaluated at the failing input `name = "red.png"`. -/
theorem color_save_png_reencoded_as_jpeg :
    splitextExt "red.png" = ".png" ∧
    (colorSave "red.png" ⟨120, 80, "RGBA"⟩).format = ImgFormat.jpeg := by
  constructor <;> rfl

/-- C7: for every save of a Color with an attached image, the persisted image
is exactly 50×50 pixels in RGB mode, regardless of the (possibly non-square)
source dimensions. -/
theorem color_save_dimensions (name : String) (img : PILImage) :
    (colorSave name img).width = 50 ∧ (colorSave name img).height = 50 ∧
    (colorSave name img).mode = "RGB" := by
  unfold colorSave pilResize pilConvert
  by_cases h : pyLower (splitextExt name) = "png" <;> simp [h]

/-! ## CustomUser referral codes (accounts/models.py)

```
def save(self, *args, **kwargs):
    if not self.referral_code:
        self.referral_code = self.generate_unique_referral_code()
    super().save(*args, **kwargs)

@staticmethod
def generate_unique_referral_code():
    while True:
        code = "".join(random.choices(string.ascii_uppercase + string.digits, k=8))
        if not CustomUser.objects.filter(referral_code=code).exists():
            return code
```

Randomness is embedded as an explicit stream of draws: iteration `n` of the
retry loop draws eight alphabet indices `draws n`. -/

/-- The generation alphabet `string.ascii_uppercase + string.digits`. -/
def referralAlphabet : List Char :=
  "ABCDEFGHIJKLMNOPQRSTUVWXYZ0123456789".data

theorem referralAlphabet_length : referralAlphabet.length = 36 := rfl

/-- One candidate code, `"".join(random.choices(alphabet, k=8))` for one
draw of eight alphabet indices. -/
def referralCodeOf (draw : Fin 8 → Fin 36) : String :=
  ⟨(List.ofFn draw).map
    (fun i => referralAlphabet.get (Fin.cast referralAlphabet_length.symm i))⟩

/-- `generate_unique_referral_code`: retry the draw until the candidate code
is held by no existing user, and return that first unused candidate.
`h` says some draw escapes the existing codes; under it the `while True`
loop terminates, at iteration `Nat.find h`. -/
def generate_unique_referral_code (draws : ℕ → Fin 8 → Fin 36)
    (existing : List String)
    (h : ∃ n, referralCodeOf (draws n) ∉ existing) : String :=
  referralCodeOf (draws (Nat.find h))

/-- `CustomUser.save`: assign a freshly generated code only when the stored
`referral_code` is falsy (the empty string); otherwise keep it. -/
def customUserSaveReferralCode (referral_code generated : String) : String :=
  if referral_code = "" then generated else referral_code

/-- C3: a save with an empty referral code assigns the generated code, which
has length exactly 8, draws every character from `{A..Z, 0..9}` and collides
with no existing user code; a save of a user that already has a referral
code leaves it unchanged. -/
theorem referral_code_spec (draws : ℕ → Fin 8 → Fin 36) (existing : List String)
    (h : ∃ n, referralCodeOf (draws n) ∉ existing) (current : String) :
    customUserSaveReferralCode "" (generate_unique_referral_code draws existing h)
      = generate_unique_referral_code draws existing h ∧
    (generate_unique_referral_code draws existing h).length = 8 ∧
    (∀ c ∈ (generate_unique_referral_code draws existing h).data,
      c ∈ referralAlphabet) ∧
    generate_unique_referral_code draws existing h ∉ existing ∧
    (current ≠ "" →
      customUserSaveReferralCode current
        (generate_unique_referral_code draws existing h) = current) := by
  refine ⟨by simp [customUserSaveReferralCode], ?_, ?_, Nat.find_spec h, ?_⟩
  · show ((List.ofFn (draws (Nat.find h))).map _).length = 8
    simp
  · intro c hc
    simp only [generate_unique_referral_code, referralCodeOf, List.mem_map,
      List.mem_ofFn] at hc
    obtain ⟨i, _, hget⟩ := hc
    exact hget ▸ List.get_mem _ _ _
  · intro hcur
    simp [customUserSaveReferralCode, hcur]

/-- Degenerate randomness stream used to instantiate `referral_code_spec`:
every pick is index 0, so every candidate is `"AAAAAAAA"`. -/
def constDraws : ℕ → Fin 8 → Fin 36 := fun _ _ => 0

theorem constDraws_escape :
    ∃ n, referralCodeOf (constDraws n) ∉ ([] : List String) :=
  ⟨0, List.not_mem_nil _⟩

/-- Witness for C3 on a concrete randomness stream, empty user table and the
pre-set code `"USER1234"`. -/
theorem referral_code_spec_witness :
    customUserSaveReferralCode ""
        (generate_unique_referral_code constDraws [] constDraws_escape)
      = generate_unique_referral_code constDraws [] constDraws_escape ∧
    (generate_unique_referral_code constDraws [] constDraws_escape).length = 8 ∧
    (∀ c ∈ (generate_unique_referral_code constDraws [] constDraws_escape).data,
      c ∈ referralAlphabet) ∧
    generate_unique_referral_code constDraws [] constDraws_escape
      ∉ ([] : List String) ∧
    customUserSaveReferralCode "USER1234"
        (generate_unique_referral_code constDraws [] constDraws_escape)
      = "USER1234" := by
  obtain ⟨h1, h2, h3, h4, h5⟩ :=
    referral_code_spec constDraws [] constDraws_escape "USER1234"
  exact ⟨h1, h2, h3, h4, h5 (by decide)⟩

/-! ## ProductVariant slug generation and unique constraints (store/models.py)

`ProductVariant.save` fills an empty slug from the variant name and optional
size name via the `slugify` imported from `autoslug.settings`, whose default
is the django `slugify` template filter.  The table carries `unique=True` on
`variant_name`, `sku` and `slug`, plus the composite
`UniqueConstraint(fields=["product", "variant_name", "size"])` from
`Meta.constraints`. -/

/-- Python regex class `\s` on ASCII: space, tab, newline, vertical tab,
form feed, carriage return. -/
def pyIsSpace (c : Char) : Bool :=
  c = ' ' || c = '\t' || c = '\n' || c = '\x0b' || c = '\x0c' || c = '\r'

/-- Characters kept by django slugify after lowering, the class `[\w\s-]`:
alphanumerics, underscore, hyphen and whitespace (ASCII). -/
def slugKeep (c : Char) : Bool :=
  c.isAlphanum || c = '_' || c = '-' || pyIsSpace c

/-- Replace each maximal run of hyphens and whitespace by a single hyphen,
as `re.sub` of the class `[-\s]+` with `-` does. -/
def collapseRuns (l : List Char) : List Char :=
  (l.foldl
    (fun acc c =>
      if c = '-' || pyIsSpace c then
        (if acc.2 then acc.1 else acc.1 ++ ['-'], true)
      else (acc.1 ++ [c], false))
    (([] : List Char), false)).1

/-- Python `str.strip` with the strip set consisting of hyphen and
underscore. -/
def stripDashUnderscore (l : List Char) : List Char :=
  ((l.dropWhile (fun c => c = '-' || c = '_')).reverse.dropWhile
    (fun c => c = '-' || c = '_')).reverse

/-- Django `slugify`, the default slug function used via
`from autoslug.settings import slugify`: NFKD-normalise and drop non-ASCII
characters (the normalisation is the identity on ASCII), lower-case, drop
characters outside `[\w\s-]`, collapse runs of hyphens and whitespace to a
single hyphen, and strip leading and trailing hyphens and underscores. -/
def slugify (s : String) : String :=
  let ascii := s.data.filter (fun c => c.toNat < 128)
  let lowered := ascii.map Char.toLower
  let kept := lowered.filter slugKeep
  ⟨stripDashUnderscore (collapseRuns kept)⟩

/-- `catalog.Size` row, as referenced by `ProductVariant.size`. -/
structure Size where
  id : Nat
  name : String
  deriving DecidableEq, Repr

/-- A `ProductVariant` row, restricted to the columns the claims touch.
`product` is the foreign key id; `size` is nullable (`null=True`). -/
structure ProductVariant where
  product : Nat
  variant_name : String
  size : Option Size
  sku : String
  slug : String
  deriving DecidableEq, Repr

/-- The slug source string of `ProductVariant.save`: the f-string joining
`variant_name` with `" - " + size.name` when a size is set. -/
def variantSlugSource (v : ProductVariant) : String :=
  v.variant_name ++
    match v.size with
    | some s => " - " ++ s.name
    | none => ""

/-- `ProductVariant.save`: when the slug is falsy (empty), set it to the
slugified slug source; otherwise leave the row as it is. -/
def productVariantSave (v : ProductVariant) : ProductVariant :=
  if v.slug = "" then { v with slug := slugify (variantSlugSource v) } else v

theorem productVariantSave_variant_name (v : ProductVariant) :
    (productVariantSave v).variant_name = v.variant_name := by
  unfold productVariantSave
  split <;> rfl

/-- Conflict between a candidate row and one stored row under the unique
constraints of the table: `variant_name`, `sku` and `slug` are each
`unique=True`, and `Meta.constraints` declares the composite uniqueness of
`(product, variant_name, size)`.  Following SQL semantics, a NULL `size`
never conflicts on the composite constraint. -/
def variantConflict (v w : ProductVariant) : Bool :=
  v.variant_name == w.variant_name || v.sku == w.sku || v.slug == w.slug ||
    (v.product == w.product && v.variant_name == w.variant_name &&
      v.size.isSome && w.size.isSome && v.size == w.size)

/-- Creating a variant: run `ProductVariant.save` (slug generation), then
the database either accepts the row or rejects it with an integrity error
when a unique constraint is violated. -/
def insertVariant (db : List ProductVariant) (v : ProductVariant) :
    Except String (List ProductVariant) :=
  let v := productVariantSave v
  if db.any (fun w => variantConflict v w) then Except.error "IntegrityError"
  else Except.ok (db ++ [v])

/-- The stored set of variants after an attempted creation: the new state on
success, the unchanged old state on rejection. -/
def insertResult (db : List ProductVariant) (v : ProductVariant) :
    List ProductVariant :=
  match insertVariant db v with
  | Except.ok db2 => db2
  | Except.error _ => db

/-- C5: a save of a variant whose slug is empty assigns the slugified
(lower-cased, hyphenated) combination of the variant name and, when a size
is set, the size name; and a successful creation preserves distinctness of
the stored slugs, so slugs stay unique across all variants. -/
theorem variant_slug_spec (v : ProductVariant) (db db2 : List ProductVariant)
    (hv : v.slug = "")
    (hnd : (db.map (fun w => w.slug)).Nodup)
    (hok : insertVariant db v = Except.ok db2) :
    (productVariantSave v).slug = slugify (variantSlugSource v) ∧
    (db2.map (fun w => w.slug)).Nodup := by
  refine ⟨by simp [productVariantSave, hv], ?_⟩
  unfold insertVariant at hok
  by_cases hc : db.any (fun w => variantConflict (productVariantSave v) w) = true
  · simp [hc] at hok
  · simp only [Bool.not_eq_true] at hc
    simp only [hc, Bool.false_eq_true, if_false, Except.ok.injEq] at hok
    subst hok
    have hx : (productVariantSave v).slug ∉ db.map (fun w => w.slug) := by
      intro hmem
      obtain ⟨w, hw, heq⟩ := List.mem_map.1 hmem
      have hcw : variantConflict (productVariantSave v) w = false := by
        have hall := List.any_eq_false.1 hc
        simpa using hall w hw
      simp [variantConflict, heq] at hcw
    rw [List.map_append]
    simp only [List.map_cons, List.map_nil]
    exact List.Nodup.append hnd (List.nodup_singleton _)
      (by simpa [List.disjoint_singleton] using hx)

/-- Witness for C5: inserting the variant `"Red Shirt"` with size `"XL"` and
empty slug into an empty table stores the slug `"red-shirt-xl"`. -/
theorem variant_slug_spec_witness :
    (productVariantSave ⟨1, "Red Shirt", some ⟨2, "XL"⟩, "SKU-1", ""⟩).slug
      = slugify (variantSlugSource ⟨1, "Red Shirt", some ⟨2, "XL"⟩, "SKU-1", ""⟩) ∧
    (([⟨1, "Red Shirt", some ⟨2, "XL"⟩, "SKU-1", "red-shirt-xl"⟩] :
        List ProductVariant).map (fun w => w.slug)).Nodup :=
  variant_slug_spec ⟨1, "Red Shirt", some ⟨2, "XL"⟩, "SKU-1", ""⟩ []
    [⟨1, "Red Shirt", some ⟨2, "XL"⟩, "SKU-1", "red-shirt-xl"⟩]
    rfl (by simp) rfl

/-- C8: creating a second variant whose `(product, variant_name, size)`
triple equals that of a stored variant is rejected with an integrity error,
and the stored set of variants is unchanged.  (Even for a NULL size, where
SQL would let the composite constraint pass, the `unique=True` on
`variant_name` forces the rejection.) -/
theorem variant_triple_unique (db : List ProductVariant)
    (v w : ProductVariant) (hw : w ∈ db)
    (hp : v.product = w.product) (hn : v.variant_name = w.variant_name)
    (hs : v.size = w.size) :
    (∃ e, insertVariant db v = Except.error e) ∧ insertResult db v = db := by
  have hconf : variantConflict (productVariantSave v) w = true := by
    simp [variantConflict, productVariantSave_variant_name, hn]
  have hany : db.any (fun u => variantConflict (productVariantSave v) u) = true :=
    List.any_eq_true.2 ⟨w, hw, hconf⟩
  refine ⟨⟨"IntegrityError", ?_⟩, ?_⟩
  · unfold insertVariant
    simp [hany]
  · unfold insertResult insertVariant
    simp [hany]

/-- Witness for C8 at a concrete duplicate triple. -/
theorem variant_triple_unique_witness :
    (∃ e, insertVariant [⟨1, "Blue Tee", some ⟨2, "XL"⟩, "SKU-1", "blue-tee-xl"⟩]
        ⟨1, "Blue Tee", some ⟨2, "XL"⟩, "SKU-2", ""⟩ = Except.error e) ∧
    insertResult [⟨1, "Blue Tee", some ⟨2, "XL"⟩, "SKU-1", "blue-tee-xl"⟩]
        ⟨1, "Blue Tee", some ⟨2, "XL"⟩, "SKU-2", ""⟩
      = [⟨1, "Blue Tee", some ⟨2, "XL"⟩, "SKU-1", "blue-tee-xl"⟩] :=
  variant_triple_unique _ _ _ (List.mem_singleton.2 rfl) rfl rfl rfl

/-- C10: `variant_name` carries `unique=True`, so a creation whose variant
name equals that of any stored variant is rejected — regardless of the
product it belongs to and of its size — which is strictly stronger than the
composite uniqueness of `(product, variant_name, size)`. -/
theorem variant_name_globally_unique (db : List ProductVariant)
    (v w : ProductVariant) (hw : w ∈ db)
    (hn : v.variant_name = w.variant_name) :
    (∃ e, insertVariant db v = Except.error e) ∧ insertResult db v = db := by
  have hconf : variantConflict (productVariantSave v) w = true := by
    simp [variantConflict, productVariantSave_variant_name, hn]
  have hany : db.any (fun u => variantConflict (productVariantSave v) u) = true :=
    List.any_eq_true.2 ⟨w, hw, hconf⟩
  refine ⟨⟨"IntegrityError", ?_⟩, ?_⟩
  · unfold insertVariant
    simp [hany]
  · unfold insertResult insertVariant
    simp [hany]

/-- Witness for C10: the new variant shares only the name — its product and
size both differ (and its size is non-null while the stored one is null, so
the composite constraint alone would not reject it) — yet creation is
rejected and the table is unchanged. -/
theorem variant_name_globally_unique_witness :
    (∃ e, insertVariant [⟨1, "Blue Tee", none, "SKU-1", "blue-tee"⟩]
        ⟨7, "Blue Tee", some ⟨2, "XL"⟩, "SKU-2", ""⟩ = Except.error e) ∧
    insertResult [⟨1, "Blue Tee", none, "SKU-1", "blue-tee"⟩]
        ⟨7, "Blue Tee", some ⟨2, "XL"⟩, "SKU-2", ""⟩
      = [⟨1, "Blue Tee", none, "SKU-1", "blue-tee"⟩] :=
  variant_name_globally_unique _ _ _ (List.mem_singleton.2 rfl) rfl

/-! ## Storefront listing: HomeView.get_context_data (store/views.py)

```
products = Product.objects.prefetch_related("variants__variant_images").all()
product_data = []
for product in products:
    first_variant = product.variants.first()
    primary_image = None
    if first_variant:
        primary_image = first_variant.variant_images.filter(is_primary=True).first()
    product_data.append(...)
```
-/

namespace Home

/-- A `ProductVariantImage` row as seen by the storefront query. -/
structure VImage where
  id : Nat
  is_primary : Bool
  deriving DecidableEq, Repr

/-- A variant with its prefetched images, in the image model ordering
(`created`). -/
structure Variant where
  id : Nat
  variant_images : List VImage
  deriving DecidableEq, Repr

/-- A product with its prefetched variants, in the default related ordering
(`ProductVariant.Meta.ordering`). -/
structure Product where
  id : Nat
  variants : List Variant
  deriving DecidableEq, Repr

/-- One entry of the listing context. -/
structure Entry where
  product : Product
  first_variant : Option Variant
  primary_image : Option VImage
  deriving DecidableEq, Repr

/-- `HomeView.get_context_data`: loop over all products, resolving for each
its first variant under default ordering and, when one exists, the first of
that variant's images flagged primary; append one entry per product. -/
def get_context_data (products : List Product) : List Entry :=
  products.foldl
    (fun product_data product =>
      let first_variant := product.variants.head?
      let primary_image :=
        match first_variant with
        | some v => (v.variant_images.filter (fun im => im.is_primary)).head?
        | none => none
      product_data ++ [⟨product, first_variant, primary_image⟩])
    []

theorem foldl_append_map {α β : Type} (g : α → β) (l : List α) :
    ∀ acc : List β, l.foldl (fun acc x => acc ++ [g x]) acc = acc ++ l.map g := by
  induction l with
  | nil => intro acc; simp
  | cons x xs ih =>
    intro acc
    simp only [List.foldl_cons, List.map_cons, ih]
    simp

/-- C6: the storefront listing has exactly one entry per product, namely the
tuple of the product, its first variant under default ordering and the first
primary-flagged image of that variant; with zero products the listing is
empty; and for a product with no variants both the first variant and the
primary image are `none`. -/
theorem home_listing_spec (products : List Product) :
    get_context_data products
      = products.map (fun product =>
          ⟨product, product.variants.head?,
            match product.variants.head? with
            | some v => (v.variant_images.filter (fun im => im.is_primary)).head?
            | none => none⟩) ∧
    get_context_data [] = [] ∧
    ∀ product : Product, product.variants = [] →
      get_context_data [product] = [⟨product, none, none⟩] := by
  refine ⟨?_, rfl, ?_⟩
  · show products.foldl (fun acc p => acc ++ [_]) [] = _
    rw [foldl_append_map]
    rfl
  · intro product hp
    show [] ++ [(⟨product, _, _⟩ : Entry)] = _
    simp [hp]

/-- Witness for C6: a product with no variants yields an entry with neither
a first variant nor a primary image. -/
theorem home_listing_spec_witness :
    get_context_data [⟨1, []⟩] = [⟨⟨1, []⟩, none, none⟩] :=
  (home_listing_spec [⟨1, []⟩]).2.2 ⟨1, []⟩ rfl

end Home

/-! ## Admin action mark_as_primary (store/admin.py)

```
def mark_as_primary(self, request, queryset):
    for image in queryset:
        image.variant.variant_images.update(is_primary=False)
        image.is_primary = True
        image.save()
```

The database is a list of image rows; the queryset is the list of selected
snapshots, each matching a stored row on primary key and variant. -/

/-- A `ProductVariantImage` row: primary key, owning variant id, primary
flag. -/
structure VariantImage where
  id : Nat
  variant : Nat
  is_primary : Bool
  deriving DecidableEq, Repr

/-- The bulk update clearing the primary flag on every image of variant
`v`. -/
def resetPrimary (db : List VariantImage) (v : Nat) : List VariantImage :=
  db.map fun im => if im.variant = v then { im with is_primary := false } else im

/-- Setting the primary flag on the selected snapshot and saving it: the row
with the snapshot id is overwritten with the snapshot fields plus the raised
flag. -/
def saveImage (db : List VariantImage) (s : VariantImage) : List VariantImage :=
  db.map fun im => if im.id = s.id then { s with is_primary := true } else im

/-- One iteration of the action loop. -/
def markAsPrimaryStep (db : List VariantImage) (s : VariantImage) :
    List VariantImage :=
  saveImage (resetPrimary db s.variant) s

/-- `ProductVariantImageAdmin.mark_as_primary` over the whole selection. -/
def mark_as_primary (db : List VariantImage) (queryset : List VariantImage) :
    List VariantImage :=
  queryset.foldl markAsPrimaryStep db

/-- Primary key of the last selected image of variant `v`, if any: the
iteration of the loop that decides which image of `v` stays primary. -/
def lastSel : List VariantImage → Nat → Option Nat
  | [], _ => none
  | s :: qs, v =>
    match lastSel qs v with
    | some tid => some tid
    | none => if s.variant = v then some s.id else none

/-- Effect of one loop iteration on one row. -/
def stepRow (s : VariantImage) (im : VariantImage) : VariantImage :=
  if im.variant = s.variant then { im with is_primary := im.id == s.id } else im

/-- Cumulative effect of the whole action on one row. -/
def markedRow (queryset : List VariantImage) (im : VariantImage) : VariantImage :=
  match lastSel queryset im.variant with
  | some tid => { im with is_primary := im.id == tid }
  | none => im

theorem stepRow_variant (s im : VariantImage) :
    (stepRow s im).variant = im.variant := by
  unfold stepRow
  split <;> rfl

theorem stepRow_id (s im : VariantImage) : (stepRow s im).id = im.id := by
  unfold stepRow
  split <;> rfl

theorem markedRow_variant (qs : List VariantImage) (im : VariantImage) :
    (markedRow qs im).variant = im.variant := by
  unfold markedRow
  cases lastSel qs im.variant <;> rfl

theorem markedRow_id (qs : List VariantImage) (im : VariantImage) :
    (markedRow qs im).id = im.id := by
  unfold markedRow
  cases lastSel qs im.variant <;> rfl

theorem lastSel_eq_none (qs : List VariantImage) (v : Nat)
    (h : ∀ s ∈ qs, s.variant ≠ v) : lastSel qs v = none := by
  induction qs with
  | nil => rfl
  | cons s qs ih =>
    have h1 : s.variant ≠ v := h s (List.mem_cons_self s qs)
    have h2 : lastSel qs v = none := ih fun t ht => h t (List.mem_cons_of_mem s ht)
    simp [lastSel, h2, h1]

theorem lastSel_mem (qs : List VariantImage) (v : Nat) (tid : Nat)
    (h : lastSel qs v = some tid) : ∃ s ∈ qs, s.id = tid ∧ s.variant = v := by
  induction qs with
  | nil => simp [lastSel] at h
  | cons s qs ih =>
    rw [lastSel] at h
    cases hq : lastSel qs v with
    | some t2 =>
      rw [hq] at h
      obtain ⟨t, ht, htid, htv⟩ := ih (hq.trans h)
      exact ⟨t, List.mem_cons_of_mem s ht, htid, htv⟩
    | none =>
      rw [hq] at h
      by_cases hs : s.variant = v
      · rw [if_pos hs] at h
        exact ⟨s, List.mem_cons_self s qs, Option.some.inj h, hs⟩
      · rw [if_neg hs] at h
        cases h

theorem lastSel_isSome (qs : List VariantImage) (v : Nat)
    (h : ∃ s ∈ qs, s.variant = v) : ∃ tid, lastSel qs v = some tid := by
  induction qs with
  | nil => simp at h
  | cons s qs ih =>
    rw [lastSel]
    cases hq : lastSel qs v with
    | some t2 => exact ⟨t2, rfl⟩
    | none =>
      obtain ⟨s0, hs0, hs0v⟩ := h
      rcases List.mem_cons.1 hs0 with rfl | hs0'
      · exact ⟨s0.id, by rw [if_pos hs0v]⟩
      · obtain ⟨t2, ht2⟩ := ih ⟨s0, hs0', hs0v⟩
        rw [ht2] at hq
        cases hq

/-- One iteration rewrites exactly the rows of the selected variant,
leaving as primary precisely the row carrying the selected id, provided row
ids are unique and the selected snapshot matches a stored row. -/
theorem markAsPrimaryStep_char (db : List VariantImage) (s : VariantImage)
    (hids : (db.map (fun im => im.id)).Nodup)
    (hcons : ∃ im ∈ db, im.id = s.id ∧ im.variant = s.variant) :
    markAsPrimaryStep db s = db.map (stepRow s) := by
  unfold markAsPrimaryStep saveImage resetPrimary
  rw [List.map_map]
  apply List.map_congr_left
  intro im him
  obtain ⟨im0, him0, hid0, hvar0⟩ := hcons
  by_cases hv : im.variant = s.variant
  · by_cases hid : im.id = s.id
    · have hb : (im.id == s.id) = true := beq_iff_eq.mpr hid
      simp [Function.comp, stepRow, hv, hid, hb]
    · have hb : (im.id == s.id) = false := beq_eq_false_iff_ne.mpr hid
      simp [Function.comp, stepRow, hv, hid, hb]
  · have hid : im.id ≠ s.id := by
      intro h
      have him0' : im = im0 :=
        List.inj_on_of_nodup_map hids him him0 (by rw [h, hid0])
      exact hv (by rw [him0', hvar0])
    simp [Function.comp, stepRow, hv, hid]

/-- The whole action acts row-wise: a row of a selected variant ends primary
exactly when it carries the id of the last selected image of that variant;
rows of unselected variants are untouched. -/
theorem mark_as_primary_char (queryset : List VariantImage) :
    ∀ db : List VariantImage,
      (db.map (fun im => im.id)).Nodup →
      (∀ s ∈ queryset, ∃ im ∈ db, im.id = s.id ∧ im.variant = s.variant) →
      mark_as_primary db queryset = db.map (markedRow queryset) := by
  induction queryset with
  | nil =>
    intro db _ _
    show db = db.map (markedRow [])
    have : ∀ im ∈ db, im = markedRow [] im := by
      intro im _
      rfl
    rw [List.map_congr_left (fun im h => (this im h).symm)]
    exact (List.map_id db).symm
  | cons s qs ih =>
    intro db hids hcons
    have hconss : ∃ im ∈ db, im.id = s.id ∧ im.variant = s.variant :=
      hcons s (List.mem_cons_self s qs)
    have hstep := markAsPrimaryStep_char db s hids hconss
    have hids2 : ((db.map (stepRow s)).map (fun im => im.id)).Nodup := by
      rw [List.map_map]
      have hcomp : ∀ im ∈ db, ((fun im => im.id) ∘ stepRow s) im = im.id := by
        intro im _
        exact stepRow_id s im
      rw [List.map_congr_left hcomp]
      exact hids
    have hcons2 : ∀ t ∈ qs, ∃ im ∈ db.map (stepRow s),
        im.id = t.id ∧ im.variant = t.variant := by
      intro t ht
      obtain ⟨im, him, h1, h2⟩ := hcons t (List.mem_cons_of_mem s ht)
      exact ⟨stepRow s im, List.mem_map_of_mem _ him,
        by rw [stepRow_id, h1], by rw [stepRow_variant, h2]⟩
    have hmark : mark_as_primary db (s :: qs)
        = (db.map (stepRow s)).map (markedRow qs) := by
      show (s :: qs).foldl markAsPrimaryStep db = _
      rw [List.foldl_cons, hstep]
      exact ih (db.map (stepRow s)) hids2 hcons2
    rw [hmark, List.map_map]
    apply List.map_congr_left
    intro im _
    show markedRow qs (stepRow s im) = markedRow (s :: qs) im
    unfold markedRow
    rw [stepRow_variant]
    simp only [lastSel]
    cases hq : lastSel qs im.variant with
    | some tid =>
      by_cases hv : im.variant = s.variant <;> simp [stepRow, hv, stepRow_id]
    | none =>
      by_cases hv : im.variant = s.variant
      · have hv2 : s.variant = im.variant := hv.symm
        simp [stepRow, hv2]
      · have hv2 : s.variant ≠ im.variant := fun h => hv h.symm
        simp [stepRow, hv, hv2]

/-- A predicate that holds at `x` and forces the primary key of `x` holds
exactly once on a list of rows with distinct primary keys. -/
theorem countP_eq_one_of_key (p : VariantImage → Bool) (x : VariantImage) :
    ∀ db : List VariantImage, (db.map (fun im => im.id)).Nodup →
      x ∈ db → p x = true → (∀ im ∈ db, p im = true → im.id = x.id) →
      db.countP p = 1 := by
  intro db
  induction db with
  | nil =>
    intro _ hx
    cases hx
  | cons a l ih =>
    intro hids hx hpx hkey
    rw [List.map_cons, List.nodup_cons] at hids
    obtain ⟨ha, hl⟩ := hids
    rcases List.mem_cons.1 hx with rfl | hx2
    · rw [List.countP_cons_of_pos _ _ hpx]
      have h0 : l.countP p = 0 := by
        rw [List.countP_eq_zero]
        intro b hb hpb
        apply ha
        rw [← hkey b (List.mem_cons_of_mem _ hb) hpb]
        exact List.mem_map_of_mem _ hb
      rw [h0]
    · have hpa : ¬ p a = true := by
        intro hc
        apply ha
        rw [hkey a (List.mem_cons_self _ _) hc]
        exact List.mem_map_of_mem _ hx2
      rw [List.countP_cons_of_neg _ _ hpa]
      exact ih hl hx2 hpx (fun im him => hkey im (List.mem_cons_of_mem _ him))

/-- Filtering by variant commutes with a row-wise update that preserves the
variant column and fixes every row of variant `v`. -/
theorem filter_variant_map (g : VariantImage → VariantImage) (v : Nat)
    (hvar : ∀ im, (g im).variant = im.variant)
    (hfix : ∀ im, im.variant = v → g im = im) :
    ∀ db : List VariantImage,
      (db.map g).filter (fun im => im.variant == v)
        = db.filter (fun im => im.variant == v) := by
  intro db
  induction db with
  | nil => rfl
  | cons a l ih =>
    rw [List.map_cons, List.filter_cons, List.filter_cons]
    by_cases hav : a.variant = v
    · have h1 : ((g a).variant == v) = true := by
        rw [hvar]
        exact beq_iff_eq.mpr hav
      have h2 : (a.variant == v) = true := beq_iff_eq.mpr hav
      rw [h1, h2, hfix a hav]
      simp [ih]
    · have h1 : ((g a).variant == v) = false := by
        rw [hvar]
        exact beq_eq_false_iff_ne.mpr hav
      have h2 : (a.variant == v) = false := beq_eq_false_iff_ne.mpr hav
      rw [h1, h2]
      simp [ih]

/-- C9: after `mark_as_primary` on a non-empty selection of image rows
(each selected snapshot matching a stored row, stored primary keys being
unique), every variant owning a selected image has exactly one image flagged
primary, and images of variants with no selected image are unchanged. -/
theorem mark_as_primary_spec (db queryset : List VariantImage)
    (hne : queryset ≠ [])
    (hids : (db.map (fun im => im.id)).Nodup)
    (hq : ∀ s ∈ queryset, ∃ im ∈ db, im.id = s.id ∧ im.variant = s.variant) :
    (∀ v, (∃ s ∈ queryset, s.variant = v) →
      ((mark_as_primary db queryset).filter
          (fun im => im.variant == v && im.is_primary)).length = 1) ∧
    (∀ v, (∀ s ∈ queryset, s.variant ≠ v) →
      (mark_as_primary db queryset).filter (fun im => im.variant == v)
        = db.filter (fun im => im.variant == v)) := by
  have hchar := mark_as_primary_char queryset db hids hq
  constructor
  · intro v hsel
    rw [hchar]
    obtain ⟨tid, htid⟩ := lastSel_isSome queryset v hsel
    obtain ⟨st, hst, hstid, hstv⟩ := lastSel_mem queryset v tid htid
    obtain ⟨imt, himt, himtid, himtv⟩ := hq st hst
    rw [← List.countP_eq_length_filter, List.countP_map]
    apply countP_eq_one_of_key _ imt db hids himt
    · show ((markedRow queryset imt).variant == v
          && (markedRow queryset imt).is_primary) = true
      have himv : imt.variant = v := himtv.trans hstv
      have hrow : markedRow queryset imt = { imt with is_primary := imt.id == tid } := by
        unfold markedRow
        rw [himv, htid]
      rw [hrow]
      have hb1 : (imt.variant == v) = true := beq_iff_eq.mpr himv
      have hb2 : (imt.id == tid) = true := beq_iff_eq.mpr (by rw [himtid, hstid])
      simp [hb1, hb2]
    · intro im him hpim
      by_cases hv : im.variant = v
      · have hrow : markedRow queryset im = { im with is_primary := im.id == tid } := by
          unfold markedRow
          rw [hv, htid]
        have hpim2 : ((markedRow queryset im).variant == v
            && (markedRow queryset im).is_primary) = true := hpim
        rw [hrow] at hpim2
        simp only [Bool.and_eq_true, beq_iff_eq] at hpim2
        rw [himtid, hstid]
        exact hpim2.2
      · exfalso
        have hb : ((markedRow queryset im).variant == v) = false := by
          rw [markedRow_variant]
          exact beq_eq_false_iff_ne.mpr hv
        have hpim2 : ((markedRow queryset im).variant == v
            && (markedRow queryset im).is_primary) = true := hpim
        rw [hb] at hpim2
        simp at hpim2
  · intro v hnosel
    rw [hchar]
    apply filter_variant_map (markedRow queryset) v
      (fun im => markedRow_variant queryset im)
    intro im hv
    unfold markedRow
    rw [hv, lastSel_eq_none queryset v hnosel]

/-- Witness for C9: rows 1 and 2 belong to variant 10 (row 2 currently
primary), row 3 to variant 20; selecting row 1 makes it the only primary
image of variant 10 and leaves variant 20 untouched. -/
theorem mark_as_primary_spec_witness :
    ((mark_as_primary [⟨1, 10, false⟩, ⟨2, 10, true⟩, ⟨3, 20, true⟩]
        [⟨1, 10, false⟩]).filter
        (fun im => im.variant == 10 && im.is_primary)).length = 1 ∧
    (mark_as_primary [⟨1, 10, false⟩, ⟨2, 10, true⟩, ⟨3, 20, true⟩]
        [⟨1, 10, false⟩]).filter (fun im => im.variant == 20)
      = ([⟨1, 10, false⟩, ⟨2, 10, true⟩, ⟨3, 20, true⟩] :
          List VariantImage).filter (fun im => im.variant == 20) := by
  obtain ⟨h1, h2⟩ := mark_as_primary_spec
    [⟨1, 10, false⟩, ⟨2, 10, true⟩, ⟨3, 20, true⟩] [⟨1, 10, false⟩]
    (by decide) (by decide) (by decide)
  exact ⟨h1 10 ⟨⟨1, 10, false⟩, by decide, rfl⟩, h2 20 (by decide)⟩

end NineBackend
